import Mathlib

/-
Verification of the BPM detection pipeline in src/bpm_detect_1.py.

The numeric core is embedded shallowly over exact rational arithmetic:
Python floats become ℚ, numpy arrays become `List ℚ`, a raised Python
exception becomes an explicit `err`/`none` value, and the `(None, None)`
return of `no_audio_data()` becomes `noData`.  The wavelet transform
`pywt.dwt(·, "db4")` is an external library call with irrational filter
coefficients; the detector is therefore parameterised by an abstract
`dwt : List ℚ → List ℚ × List ℚ`, constrained where needed by the db4
output-length law (both coefficient arrays of `pywt.dwt(x, "db4")` have
`⌊(len(x) + 7) / 2⌋` entries, symmetric padding, filter length 8).
-/

/-- Result of `bpm_detector` (src/bpm_detect_1.py lines 45-100): `err` models an
uncaught Python exception (e.g. a numpy broadcast `ValueError`), `noData` models
the `no_audio_data()` return `(None, None)`, and `ok bpms` models a successful
return `(bpm, correl)` where `bpm` is the numpy array holding one BPM value per
tied autocorrelation peak (callers discard the `correl` component). -/
inductive DetResult where
  | err : DetResult
  | noData : DetResult
  | ok : List ℚ → DetResult
  deriving DecidableEq

/-- Elementwise numpy addition of two 1-D arrays: equal lengths add pointwise, a
length-1 operand broadcasts across the other, and any other shape pair raises a
`ValueError` (modelled by `none`). -/
def npAdd (x y : List ℚ) : Option (List ℚ) :=
  if x.length = y.length then some (List.zipWith (fun a b => a + b) x y)
  else if x.length = 1 then some (y.map (fun b => x.headD 0 + b))
  else if y.length = 1 then some (x.map (fun a => a + y.headD 0))
  else none

/-- `numpy.mean` of a 1-D array, in exact arithmetic.  (The pipeline only takes
means of nonempty arrays; the `0/0 = 0` convention of ℚ for the empty array is
never exercised.) -/
def pyMean (l : List ℚ) : ℚ := l.sum / (l.length : ℚ)

/-- `numpy.amax(abs(data))`: the largest absolute value of the entries.  For a
nonempty array this agrees with numpy; numpy raises on an empty array, which the
pipeline never passes (the fold's base `0` is never the returned maximum there). -/
def amaxAbs (l : List ℚ) : ℚ := l.foldr (fun v m => max |v| m) 0

/-- Python extended slice `x[::k]` for a stride `k ≥ 1`: the elements at indices
`0, k, 2k, ...`; there are `⌈len(x)/k⌉` of them.  (The source only uses strides
`2^(levels-loop-1) ∈ {8,4,2,1}`.) -/
def subsampleList (x : List ℚ) (k : ℕ) : List ℚ :=
  (List.range ((x.length + k - 1) / k)).map (fun m => x.getD (m * k) 0)

/-- `scipy.signal.lfilter(b, a, x)` in the single-tap case `b = [b0]`, `a = [a0]`:
the denominator list has no feedback taps, so after the `a0` normalisation the
recurrence degenerates to `y[n] = (b0/a0) · x[n]`.  The source calls it with
`b = [0.01]` and `a = [1 - 0.99]`, i.e. the one-element list `a = [0.01]`. -/
def lfilter_single (b0 a0 : ℚ) (x : List ℚ) : List ℚ := x.map (fun v => b0 / a0 * v)

/-- Modelled from the spec: the smoothing recurrence the spec ascribes to the
filter call — `output[n] = 0.01·input[n] + 0.99·output[n-1]` with zero initial
state — for comparison with the code's actual `lfilter` call. -/
def specSmoothAux (prev : ℚ) : List ℚ → List ℚ
  | [] => []
  | v :: vs => (1/100 * v + 99/100 * prev) :: specSmoothAux (1/100 * v + 99/100 * prev) vs

/-- Modelled from the spec: see `specSmoothAux`. -/
def specSmooth (x : List ℚ) : List ℚ := specSmoothAux 0 x

/-- Lines 66-70 of `bpm_detector`, for one decomposition level: filter the detail
signal, subsample by the stride `2^(levels-loop-1)`, rectify, and zero-center by
the mean — note the code subsamples before taking `abs` and before the mean, so
the subtracted mean is the mean of the subsampled rectified signal. -/
def processDetail (stride : ℕ) (cD : List ℚ) : List ℚ :=
  let f := lfilter_single (1/100) (1/100) cD
  let s := (subsampleList f stride).map (fun v => |v|)
  s.map (fun v => v - pyMean s)

/-- Modelled from the spec (the order claimed by C3): rectify the filtered detail
signal at full rate, zero-center by the full-rate mean, and only then subsample. -/
def specEnvelope (stride : ℕ) (cD : List ℚ) : List ℚ :=
  let f := lfilter_single (1/100) (1/100) cD
  let r := f.map (fun v => |v|)
  subsampleList (r.map (fun v => v - pyMean r)) stride

/-- Lines 79-81 of `bpm_detector`: filter, rectify and zero-center the final
approximation signal (no subsampling). -/
def processApprox (cA : List ℚ) : List ℚ :=
  let f := lfilter_single (1/100) (1/100) cA
  let r := f.map (fun v => |v|)
  r.map (fun v => v - pyMean r)

/-- Output length of `pywt.dwt(x, "db4")` (symmetric padding, filter length 8):
both coefficient arrays have `⌊(n + 7)/2⌋` entries. -/
def dwtLen (n : ℕ) : ℕ := (n + 7) / 2

/-- Modelled from the spec / pywt: the value of `pywt.dwt(·, "db4")` on all-zero
input.  A linear transform maps zeros to zeros, at the db4 output length; this
concrete instance lets the detector be evaluated on silent windows. -/
def db4ZeroModel (x : List ℚ) : List ℚ × List ℚ :=
  (List.replicate (dwtLen x.length) 0, List.replicate (dwtLen x.length) 0)

/-- `min_ndx = math.floor(60.0 / 220 * (fs / max_decimation))` with
`max_decimation = 2^(levels-1) = 8` (lines 50-52 of the source).  The value is
nonnegative for every nonnegative rate, so `Int.toNat` is exact there. -/
def minNdx (fs : ℚ) : ℕ := (⌊60 / 220 * (fs / 8)⌋).toNat

/-- `max_ndx = math.floor(60.0 / 40 * (fs / max_decimation))` (line 53). -/
def maxNdx (fs : ℚ) : ℕ := (⌊60 / 40 * (fs / 8)⌋).toNat

/-- `numpy.correlate(a, a, "full")`: the two-sided autocorrelation, of length
`2·len(a) - 1`; entry `j` holds the correlation at lag `j - (len(a) - 1)`. -/
def autocorrFull (a : List ℚ) : List ℚ :=
  (List.range (2 * a.length - 1)).map (fun j =>
    (List.range a.length).foldl (fun s i =>
      s + a.getD i 0 * (if a.length ≤ i + j + 1 then a.getD (i + j + 1 - a.length) 0 else 0)) 0)

/-- Lines 87-88: the causal half `correl[midpoint:]` of the autocorrelation,
with `midpoint = math.floor(len(correl) / 2)`. -/
def acTail (c : List ℚ) : List ℚ := (autocorrFull c).drop ((autocorrFull c).length / 2)

/-- Line 94: the windowed lag slice `correl_midpoint_tmp[min_ndx:max_ndx]`. -/
def acSlice (c : List ℚ) (fs : ℚ) : List ℚ :=
  ((acTail c).drop (minNdx fs)).take (maxNdx fs - minNdx fs)

/-- Lines 37-42 (`peak_detect`): `max_val = numpy.amax(abs(data))`; return the
indices where `data == max_val`, falling back to the indices where
`data == -max_val` when there are none. -/
def peak_detect (data : List ℚ) : List ℕ :=
  let m := amaxAbs data
  let pos := (List.range data.length).filter (fun i => decide (data.getD i 0 = m))
  if pos = [] then (List.range data.length).filter (fun i => decide (data.getD i 0 = -m))
  else pos

/-- The indices attaining the maximum absolute value — the `argmax(abs(x))`
reading that the spec warns is not equivalent to `peak_detect`. -/
def absArgmaxIdxs (data : List ℚ) : List ℕ :=
  (List.range data.length).filter (fun i => decide (|data.getD i 0| = amaxAbs data))

/-- Lines 84-100 of `bpm_detector`: autocorrelate the composite signal, keep the
causal half, return `no_audio_data()` when the configured lag range does not fit
or no peak is found, and otherwise convert each winning lag (offset by
`min_ndx`) to BPM via `60 / lag * (fs / max_decimation)`. -/
def estimateFromComposite (c : List ℚ) (fs : ℚ) : DetResult :=
  if minNdx fs ≥ (acTail c).length ∨ maxNdx fs > (acTail c).length then .noData
  else
    let peaks := peak_detect (acSlice c fs)
    if peaks = [] then .noData
    else .ok (peaks.map (fun i : ℕ => 60 / ((i : ℚ) + (minNdx fs : ℚ)) * (fs / 8)))

/-- Lines 55-73 of `bpm_detector`: the four-level decomposition loop
(`levels = 4`, written out once per iteration; strides `8, 4, 2, 1`).  Level 0
fixes the common length `T = ⌊len(cD)/max_decimation⌋ + 1` (this equals
`math.floor(len(cD)/max_decimation + 1)`) and starts `cD_sum = zeros(T)`; each
level truncates its processed detail envelope to `T` and numpy-adds it into
`cD_sum`.  `none` models the broadcast `ValueError` when an addition fails.
Returns the final approximation signal, the running sum, and `T`. -/
def detectorLoop (dwt : List ℚ → List ℚ × List ℚ) (data : List ℚ) :
    Option (List ℚ × List ℚ × ℕ) :=
  let p0 := dwt data
  let T := p0.2.length / 8 + 1
  (npAdd ((processDetail 8 p0.2).take T) (List.replicate T 0)).bind (fun s1 =>
    let p1 := dwt p0.1
    (npAdd ((processDetail 4 p1.2).take T) s1).bind (fun s2 =>
      let p2 := dwt p1.1
      (npAdd ((processDetail 2 p2.2).take T) s2).bind (fun s3 =>
        let p3 := dwt p2.1
        (npAdd ((processDetail 1 p3.2).take T) s3).map (fun s4 => (p3.1, s4, T)))))

/-- Lines 45-100 (`bpm_detector`), parameterised by the wavelet transform: run
the decomposition loop, return `no_audio_data()` when the final approximation
signal has no nonzero entry (line 75 — also true of an empty signal), otherwise
add the processed approximation envelope into the composite and estimate the
tempo from its autocorrelation. -/
def bpm_detector (dwt : List ℚ → List ℚ × List ℚ) (data : List ℚ) (fs : ℚ) : DetResult :=
  match detectorLoop dwt data with
  | none => .err
  | some (cA, s, T) =>
    if cA.all (fun b => decide (b = 0)) then .noData
    else
      match npAdd ((processApprox cA).take T) s with
      | none => .err
      | some comp => estimateFromComposite comp fs

/-- Lines 118-131 (and identically 164-177): shrink the window size to the whole
sequence when the sequence is shorter than one window, then cut
`⌊nsamps / window_samps⌋` consecutive full windows; the remainder is dropped.
`none` models the `ZeroDivisionError` raised by
`math.floor(nsamps / window_samps)` when the adjusted window size is zero (in
particular on the empty sequence). -/
def detectWindows (samps : List ℚ) (window_samps0 : ℕ) : Option (List (List ℚ)) :=
  let ws := if samps.length < window_samps0 then samps.length else window_samps0
  if ws = 0 then none
  else some ((List.range (samps.length / ws)).map (fun k => (samps.drop (k * ws)).take ws))

/-- Result of the file-level analysis: an uncaught exception, the `None` return
announcing that no BPM was detected, or a numeric BPM. -/
inductive FileResult where
  | err
  | undetected
  | bpm (b : ℚ)
  deriving DecidableEq

/-- True exactly on the exception marker. -/
def isErr : DetResult → Bool
  | .err => true
  | _ => false

/-- The per-window `bpm` array when the window succeeded (`if bpm is not None`). -/
def okList : DetResult → Option (List ℚ)
  | .ok l => some l
  | _ => none

/-- The window's estimate when it is a single value, as the spec's data model
(one floating-point BPM per successful window) expects. -/
def extractSingle : DetResult → Option ℚ
  | .ok [b] => some b
  | _ => none

/-- Insertion into a sorted list (ascending). -/
def insertSortedQ (v : ℚ) : List ℚ → List ℚ
  | [] => [v]
  | w :: ws => if v ≤ w then v :: w :: ws else w :: insertSortedQ v ws

/-- Insertion sort, ascending. -/
def sortQ : List ℚ → List ℚ
  | [] => []
  | v :: vs => insertSortedQ v (sortQ vs)

/-- `numpy.median` of a 1-D array: sort; take the middle element (odd length) or
the average of the two middle elements (even length). -/
def pyMedian (xs : List ℚ) : ℚ :=
  let s := sortQ xs
  if xs.length % 2 = 1 then s.getD (xs.length / 2) 0
  else (s.getD (xs.length / 2 - 1) 0 + s.getD (xs.length / 2) 0) / 2

/-- Python `round(x, 1)` in exact arithmetic: round half to even at one decimal. -/
def roundHalfEven (x : ℚ) : ℤ :=
  if x - ⌊x⌋ < 1/2 then ⌊x⌋
  else if 1/2 < x - ⌊x⌋ then ⌊x⌋ + 1
  else if ⌊x⌋ % 2 = 0 then ⌊x⌋ else ⌊x⌋ + 1

/-- One-decimal rounding, `round(float(bpm), 1)` of lines 145 / 191. -/
def round1 (x : ℚ) : ℚ := (roundHalfEven (10 * x) : ℚ) / 10

/-- Lines 126-145 (and identically 172-191): collect the non-`None` per-window
`bpm` arrays, return `None` (`undetected`) when the list is empty, otherwise
report `round(float(numpy.median(bpms)), 1)`.  A window that raised propagates
its exception (`err`); `numpy.median` over arrays of unequal lengths also
raises. -/
def aggregate (rs : List DetResult) : FileResult :=
  if rs.any isErr then .err
  else
    let bpms := rs.filterMap okList
    if bpms = [] then .undetected
    else if bpms.all (fun l => decide (l.length = (bpms.headD []).length))
      then .bpm (round1 (pyMedian bpms.flatten))
      else .err

/-- Lines 103-145 (`detect_file_bpm`), numeric core: window the samples
(`window_samps0 = int(window_size * fs)` is precomputed by the caller), run
`bpm_detector` on each window, and aggregate.  File I/O (lines 105-116) is an
external collaborator and is not modelled. -/
def detect_file_bpm (dwt : List ℚ → List ℚ × List ℚ) (samps : List ℚ) (fs : ℚ)
    (window_samps0 : ℕ) : FileResult :=
  match detectWindows samps window_samps0 with
  | none => .err
  | some ws => aggregate (ws.map (fun w => bpm_detector dwt w fs))

/-- Result of the segment-level analysis; `invalidRange` is the early `None`
return of lines 157-159, before any sample is touched. -/
inductive SegResult where
  | invalidRange
  | err
  | undetected
  | bpm (b : ℚ)
  deriving DecidableEq

/-- Embeds a file-level outcome into the segment result type. -/
def segOf : FileResult → SegResult
  | .err => .err
  | .undetected => .undetected
  | .bpm b => .bpm b

/-- Python `int(x)`: truncation toward zero. -/
def pyInt (x : ℚ) : ℤ := if 0 ≤ x then ⌊x⌋ else ⌈x⌉

/-- Normalisation of one Python slice bound (step 1): negative indices count
from the end and bounds are clamped to `[0, len]`. -/
def sliceIdx (len : ℕ) (i : ℤ) : ℕ :=
  if i < 0 then (max ((len : ℤ) + i) 0).toNat else min i.toNat len

/-- Python slice `l[i:j]` with integer (possibly negative) bounds, step 1. -/
def pySlice (l : List ℚ) (i j : ℤ) : List ℚ :=
  (l.drop (sliceIdx l.length i)).take (sliceIdx l.length j - sliceIdx l.length i)

/-- Lines 148-191 (`detect_segment_bpm`), numeric core: convert the time bounds
to sample indices with `int(·)`, reject with the early `None` of line 159 when
`start_sample >= len` or `end_sample > len` or `start_sample >= end_sample`,
otherwise slice the segment (Python slice semantics) and run the same windowing
and aggregation as the file path. -/
def detect_segment_bpm (dwt : List ℚ → List ℚ × List ℚ) (audio : List ℚ) (fs : ℚ)
    (start_time end_time : ℚ) (window_samps0 : ℕ) : SegResult :=
  let ss := pyInt (start_time * fs)
  let es := pyInt (end_time * fs)
  if (audio.length : ℤ) ≤ ss ∨ (audio.length : ℤ) < es ∨ es ≤ ss then .invalidRange
  else
    match detectWindows (pySlice audio ss es) window_samps0 with
    | none => .err
    | some ws => segOf (aggregate (ws.map (fun w => bpm_detector dwt w fs)))

/-- A composite signal whose autocorrelation peaks at lag 1: at rate 32 the lag
range is `[min_ndx, max_ndx) = [1, 6)` and lag 1 converts to 240 BPM. -/
def sigBeat : List ℚ := [1, 1, 0, 0, 0, 0]

/-- A composite signal with impulses at indices 0, 2, 3, 5: its autocorrelation
attains its maximum 2 at both lag 2 and lag 3, a tie across two lags. -/
def sigTie : List ℚ := [1, 0, 1, 1, 0, 1]

/-! ### General lemmas about the embedded operations -/

/-- The code's filter call is the identity: `b0/a0 = 0.01/0.01 = 1`. -/
theorem lfilter_id (x : List ℚ) : lfilter_single (1/100) (1/100) x = x := by
  have h : (1:ℚ)/100 / (1/100) = 1 := by norm_num
  simp [lfilter_single, h]

theorem subsampleList_length (x : List ℚ) (k : ℕ) :
    (subsampleList x k).length = (x.length + k - 1) / k := by
  simp [subsampleList]

theorem lfilter_single_length (b0 a0 : ℚ) (x : List ℚ) :
    (lfilter_single b0 a0 x).length = x.length := by
  simp [lfilter_single]

theorem processDetail_length (stride : ℕ) (cD : List ℚ) :
    (processDetail stride cD).length = (cD.length + stride - 1) / stride := by
  simp [processDetail, subsampleList_length, lfilter_single]

theorem processApprox_length (cA : List ℚ) : (processApprox cA).length = cA.length := by
  simp [processApprox, lfilter_single]

theorem npAdd_same_length {x y : List ℚ} (h : x.length = y.length) :
    npAdd x y = some (List.zipWith (fun a b => a + b) x y) := by
  simp [npAdd, h]

/-- numpy addition succeeds, with the second operand's length, whenever the
shapes match or the first operand broadcasts. -/
theorem npAdd_ok {x y : List ℚ} (h : x.length = y.length ∨ x.length = 1) :
    ∃ z, npAdd x y = some z ∧ z.length = y.length := by
  rcases h with h | h
  · exact ⟨_, npAdd_same_length h, by simp [h]⟩
  · by_cases he : x.length = y.length
    · exact ⟨_, npAdd_same_length he, by simp [he]⟩
    · rw [h] at he
      exact ⟨y.map (fun b => x.headD 0 + b), by simp [npAdd, h, he], by simp⟩

theorem getD_map_abs (f : List ℚ) (i : ℕ) :
    (f.map (fun v => |v|)).getD i 0 = |f.getD i 0| := by
  rcases lt_or_le i f.length with hi | hi
  · simp [List.getD_eq_getElem?_getD, List.getElem?_map, List.getElem?_eq_getElem hi]
  · rw [List.getD_eq_default _ _ (by simpa using hi), List.getD_eq_default _ _ hi]
    simp

/-- Rectification commutes with subsampling. -/
theorem subsample_map_abs (f : List ℚ) (k : ℕ) :
    subsampleList (f.map (fun v => |v|)) k = (subsampleList f k).map (fun v => |v|) := by
  simp only [subsampleList, List.length_map, List.map_map]
  exact List.map_congr_left (fun m _ => getD_map_abs f (m * k))

/-! ### Concrete evaluations of the estimator at rate 32 -/

theorem minNdx32 : minNdx 32 = 1 := by
  have h : (⌊60 / 220 * ((32:ℚ) / 8)⌋ : ℤ) = 1 := by
    rw [Int.floor_eq_iff]
    norm_num
  simp [minNdx, h]

theorem maxNdx32 : maxNdx 32 = 6 := by
  have h : (⌊60 / 40 * ((32:ℚ) / 8)⌋ : ℤ) = 6 := by
    rw [Int.floor_eq_iff]
    norm_num
  simp [maxNdx, h]

theorem autocorr_sigBeat : autocorrFull sigBeat = [0,0,0,0,1,2,1,0,0,0,0] := by
  have h11 : List.range 11 = [0,1,2,3,4,5,6,7,8,9,10] := rfl
  have h6 : List.range 6 = [0,1,2,3,4,5] := rfl
  norm_num [autocorrFull, sigBeat, h11, h6, List.getD]

theorem autocorr_sigTie : autocorrFull sigTie = [1,0,2,2,1,4,1,2,2,0,1] := by
  have h11 : List.range 11 = [0,1,2,3,4,5,6,7,8,9,10] := rfl
  have h6 : List.range 6 = [0,1,2,3,4,5] := rfl
  norm_num [autocorrFull, sigTie, h11, h6, List.getD]

theorem sigBeat_estimate : estimateFromComposite sigBeat 32 = DetResult.ok [240] := by
  have h5 : List.range 5 = [0,1,2,3,4] := rfl
  norm_num [estimateFromComposite, acTail, acSlice, autocorr_sigBeat, minNdx32, maxNdx32,
    peak_detect, amaxAbs, h5, List.getD, max_def, List.filter]

theorem sigTie_estimate : estimateFromComposite sigTie 32 = DetResult.ok [120, 80] := by
  have h5 : List.range 5 = [0,1,2,3,4] := rfl
  norm_num [estimateFromComposite, acTail, acSlice, autocorr_sigTie, minNdx32, maxNdx32,
    peak_detect, amaxAbs, h5, List.getD, max_def, List.filter, List.flatMap]
  simp only [show (([1, 2] : List ℕ) = []) = False from by simp, if_false]
  norm_num

/-! ### Claim theorems -/

/-- C2 (code bug): the source's smoothing call `lfilter([0.01], [1 - 0.99], x)`
passes the one-element denominator `[0.01]`, so the filter is the identity map —
it does not compute the claimed recurrence `y[n] = 0.01·x[n] + 0.99·y[n-1]`,
which on the input `[1]` would give `[0.01]`, not `[1]`. -/
theorem C2_filter_is_identity :
    (∀ x : List ℚ, lfilter_single (1/100) (1/100) x = x) ∧
      lfilter_single (1/100) (1/100) [1] = [1] ∧ specSmooth [1] = [1/100] := by
  refine ⟨lfilter_id, lfilter_id [1], ?_⟩
  norm_num [specSmooth, specSmoothAux]

/-- C3 counterexample: on the detail signal `[1, -3]` with stride 2, the code's
per-level processing (subsample, then rectify, then subtract the subsampled
mean) yields `[0]`, while the claimed order (rectify, subtract the full-rate
mean, then subsample) yields `[-1]` — the claim is false as stated. -/
theorem C3_counterexample :
    processDetail 2 [1, -3] = [0] ∧ specEnvelope 2 [1, -3] = [-1] ∧
      processDetail 2 [1, -3] ≠ specEnvelope 2 [1, -3] := by
  have habs : |(-3:ℚ)| = 3 := by norm_num
  have h1 : List.range 1 = [0] := rfl
  have h2 : List.range 2 = [0, 1] := rfl
  refine ⟨?_, ?_, ?_⟩ <;>
    norm_num [processDetail, specEnvelope, subsampleList, lfilter_id, pyMean, habs, h1, h2,
      List.getD]

/-- C3 amended: the per-level envelope equals the filtered detail signal
subsampled by the stride, then rectified, then zero-centered by the mean of the
subsampled rectified signal (rectification commutes with subsampling, but the
subtracted mean is the subsampled-rate mean, not the full-rate mean). -/
theorem C3_amended_order (stride : ℕ) (cD : List ℚ) :
    processDetail stride cD =
      (subsampleList ((lfilter_single (1/100) (1/100) cD).map (fun v => |v|)) stride).map
        (fun v =>
          v - pyMean (subsampleList ((lfilter_single (1/100) (1/100) cD).map (fun v => |v|))
            stride)) := by
  simp only [processDetail, subsample_map_abs]

/-- Any index returned by `peak_detect` is a valid index into the data. -/
theorem peak_detect_lt {data : List ℚ} {i : ℕ} (h : i ∈ peak_detect data) :
    i < data.length := by
  simp only [peak_detect] at h
  split at h <;> exact List.mem_range.mp (List.mem_filter.mp h).1

/-- Unpacking a successful run of the periodicity estimator. -/
theorem estimate_ok_iff {c : List ℚ} {fs : ℚ} {bpms : List ℚ}
    (h : estimateFromComposite c fs = DetResult.ok bpms) :
    minNdx fs < (acTail c).length ∧ maxNdx fs ≤ (acTail c).length ∧
      peak_detect (acSlice c fs) ≠ [] ∧
      bpms = (peak_detect (acSlice c fs)).map
        (fun i : ℕ => 60 / ((i : ℚ) + (minNdx fs : ℚ)) * (fs / 8)) := by
  by_cases h1 : minNdx fs ≥ (acTail c).length ∨ maxNdx fs > (acTail c).length
  · simp only [estimateFromComposite, if_pos h1] at h
    cases h
  · push_neg at h1
    simp only [estimateFromComposite, if_neg (by push_neg; exact h1 :
      ¬(minNdx fs ≥ (acTail c).length ∨ maxNdx fs > (acTail c).length))] at h
    by_cases h2 : peak_detect (acSlice c fs) = []
    · rw [if_pos h2] at h; cases h
    · rw [if_neg h2] at h
      have := DetResult.ok.inj h
      exact ⟨h1.1, h1.2, h2, this.symm⟩

/-- A duplicate-free list whose members all equal `i` has at most one entry. -/
theorem length_eq_one_of_nodup_all_eq {l : List ℕ} {i : ℕ} (hnd : l.Nodup) (hne : l ≠ [])
    (hall : ∀ x ∈ l, x = i) : l.length = 1 := by
  cases l with
  | nil => exact absurd rfl hne
  | cons a t =>
    cases t with
    | nil => rfl
    | cons b u =>
      have ha := hall a (by simp)
      have hb := hall b (by simp)
      subst ha
      rw [hb] at hnd
      simp at hnd

/-- C8: `peak_detect` returns exactly the indices at which the data equals
`+amax|data|` when that set is nonempty, and otherwise the indices at which it
equals `-amax|data|`; and this rule differs from `argmax(abs(x))` under ties
across signs, as `[-1, 1]` shows (the rule keeps only index 1, the absolute
argmax keeps both). -/
theorem C8_peak_rule :
    (∀ data : List ℚ, data ≠ [] →
      ((∃ j, j < data.length ∧ data.getD j 0 = amaxAbs data) →
        ∀ i, i ∈ peak_detect data ↔ i < data.length ∧ data.getD i 0 = amaxAbs data) ∧
      ((∀ j, j < data.length → data.getD j 0 ≠ amaxAbs data) →
        ∀ i, i ∈ peak_detect data ↔ i < data.length ∧ data.getD i 0 = -amaxAbs data)) ∧
    peak_detect [-1, 1] = [1] ∧ absArgmaxIdxs [-1, 1] = [0, 1] := by
  refine ⟨fun data _ => ⟨?_, ?_⟩, ?_, ?_⟩
  · rintro ⟨j, hj, hjv⟩ i
    have hjmem : j ∈ (List.range data.length).filter
        (fun k => decide (data.getD k 0 = amaxAbs data)) :=
      List.mem_filter.mpr ⟨List.mem_range.mpr hj, by simp only [decide_eq_true_eq]; exact hjv⟩
    simp only [peak_detect]
    rw [if_neg (List.ne_nil_of_mem hjmem)]
    simp [List.mem_filter, List.mem_range]
  · intro h i
    have hnil : (List.range data.length).filter
        (fun k => decide (data.getD k 0 = amaxAbs data)) = [] := by
      refine List.filter_eq_nil_iff.mpr (fun a ha => ?_)
      simp only [decide_eq_true_eq]
      exact h a (List.mem_range.mp ha)
    simp only [peak_detect]
    rw [if_pos hnil]
    simp [List.mem_filter, List.mem_range]
  · have h2 : List.range 2 = [0, 1] := rfl
    norm_num [peak_detect, amaxAbs, h2, List.getD, max_def, List.filter]
  · have h2 : List.range 2 = [0, 1] := rfl
    norm_num [absArgmaxIdxs, amaxAbs, h2, List.getD, max_def, List.filter]

/-- C8 witness: on the slice `[-2, 3]` the maximum magnitude 3 is attained with
positive sign at index 1, so `peak_detect` keeps index 1 and drops index 0. -/
theorem C8_witness : 1 ∈ peak_detect [(-2:ℚ), 3] ∧ 0 ∉ peak_detect [(-2:ℚ), 3] := by
  have hamax : amaxAbs [(-2:ℚ), 3] = 3 := by norm_num [amaxAbs, max_def]
  have hget1 : ([(-2:ℚ), 3]).getD 1 0 = 3 := by norm_num [List.getD]
  have hget0 : ([(-2:ℚ), 3]).getD 0 0 = -2 := by norm_num [List.getD]
  have h := (C8_peak_rule.1 [(-2:ℚ), 3] (by simp)).1
    ⟨1, by norm_num, by rw [hget1, hamax]⟩
  constructor
  · exact (h 1).mpr ⟨by norm_num, by rw [hget1, hamax]⟩
  · intro hmem
    have h0 := ((h 0).mp hmem).2
    rw [hget0, hamax] at h0
    norm_num at h0

/-- C1 counterexample: at rate 32 the lag range is `[min_ndx, max_ndx) = [1, 6)`
(`min_ndx = ⌊60/220 · 4⌋ = 1` rounds down), the composite `sigBeat` peaks at lag
1, and the reported BPM `60/1 · (32/8) = 240` exceeds the upper tempo bound 220:
the invariant "BPM lies within [40, 220]" fails. -/
theorem C1_counterexample :
    estimateFromComposite sigBeat 32 = DetResult.ok [240] ∧ ¬((240:ℚ) ≤ 220) :=
  ⟨sigBeat_estimate, by norm_num⟩

/-- C1 amended: every BPM the estimator reports lies strictly above the lower
tempo bound 40, and at or below `60/min_ndx · (rate/max_decimation)` — an upper
limit that equals 220 only when `60/220 · rate/8` is an integer and otherwise
exceeds 220 (the floor in `min_ndx` rounds down). -/
theorem C1_amended_bounds (c : List ℚ) (fs : ℚ) (hfs : 30 ≤ fs) (bpms : List ℚ)
    (h : estimateFromComposite c fs = DetResult.ok bpms) :
    ∀ b ∈ bpms, 40 < b ∧ b ≤ 60 / (minNdx fs : ℚ) * (fs / 8) := by
  obtain ⟨-, hM, -, hb⟩ := estimate_ok_iff h
  subst hb
  intro b hbm
  obtain ⟨i, hi, rfl⟩ := List.mem_map.mp hbm
  have hfs0 : (0:ℚ) < fs := by linarith
  have hmin1 : 1 ≤ minNdx fs := by
    have h1 : (1:ℤ) ≤ ⌊60 / 220 * (fs / 8)⌋ := by
      rw [Int.le_floor]
      push_cast
      linarith
    unfold minNdx
    omega
  have hiM : i + minNdx fs < maxNdx fs := by
    have hlen : i < (acSlice c fs).length := peak_detect_lt hi
    have : (acSlice c fs).length ≤ maxNdx fs - minNdx fs := by
      simp only [acSlice, List.length_take, List.length_drop]
      omega
    omega
  have hMq : ((maxNdx fs : ℕ) : ℚ) ≤ 60 / 40 * (fs / 8) := by
    have h0 : (0:ℚ) ≤ 60 / 40 * (fs / 8) := by positivity
    have h1 : (0:ℤ) ≤ ⌊60 / 40 * (fs / 8)⌋ := Int.floor_nonneg.mpr h0
    have h2 : ((⌊60 / 40 * (fs / 8)⌋.toNat : ℤ) : ℚ) ≤ 60 / 40 * (fs / 8) := by
      rw [Int.toNat_of_nonneg h1]
      exact Int.floor_le _
    unfold maxNdx
    exact_mod_cast h2
  have hx1 : (1:ℚ) ≤ (i : ℚ) + (minNdx fs : ℚ) := by
    have : ((1:ℕ) : ℚ) ≤ ((minNdx fs : ℕ) : ℚ) := by exact_mod_cast hmin1
    have hi0 : (0:ℚ) ≤ (i : ℚ) := by positivity
    push_cast at this ⊢
    linarith
  have hxM : (i : ℚ) + (minNdx fs : ℚ) + 1 ≤ ((maxNdx fs : ℕ) : ℚ) := by
    have : ((i + minNdx fs + 1 : ℕ) : ℚ) ≤ ((maxNdx fs : ℕ) : ℚ) := by
      exact_mod_cast hiM
    push_cast at this
    linarith
  have hx0 : (0:ℚ) < (i : ℚ) + (minNdx fs : ℚ) := by linarith
  constructor
  · rw [div_mul_eq_mul_div, lt_div_iff₀ hx0]
    linarith
  · have hm0 : (0:ℚ) < (minNdx fs : ℚ) := by
      have : ((1:ℕ) : ℚ) ≤ ((minNdx fs : ℕ) : ℚ) := by exact_mod_cast hmin1
      push_cast at this
      linarith
    have hmx : (minNdx fs : ℚ) ≤ (i : ℚ) + (minNdx fs : ℚ) := by
      have hi0 : (0:ℚ) ≤ (i : ℚ) := by positivity
      linarith
    gcongr

/-- C1 witness: the amended bounds at `sigBeat`, rate 32 — the reported 240 BPM
exceeds 40 and meets the corrected upper limit `60/min_ndx · 4 = 240`. -/
theorem C1_witness :
    (40:ℚ) < 240 ∧ (240:ℚ) ≤ 60 / (minNdx 32 : ℚ) * (32 / 8) :=
  C1_amended_bounds sigBeat 32 (by norm_num) [240] sigBeat_estimate 240 (by simp)

/-- C10 counterexample: on the composite `sigTie` at rate 32 the autocorrelation
maximum 2 is attained at both lag 2 and lag 3, and `bpm_detector`'s result array
holds both converted BPMs `[120, 80]` — two estimates are reported for the
window, not exactly one. -/
theorem C10_counterexample :
    estimateFromComposite sigTie 32 = DetResult.ok [120, 80] ∧
      ([120, 80] : List ℚ).length ≠ 1 :=
  ⟨sigTie_estimate, by simp⟩

/-- C10 amended: a successful window reports one BPM value per tied peak lag —
a nonempty array with exactly as many entries as `peak_detect` returned, and a
single value precisely when the maximum is attained at a unique slice index. -/
theorem C10_amended_ties (c : List ℚ) (fs : ℚ) (bpms : List ℚ)
    (h : estimateFromComposite c fs = DetResult.ok bpms) :
    bpms ≠ [] ∧ bpms.length = (peak_detect (acSlice c fs)).length ∧
      ∀ i, i < (acSlice c fs).length →
        (acSlice c fs).getD i 0 = amaxAbs (acSlice c fs) →
        (∀ j, j < (acSlice c fs).length →
          (acSlice c fs).getD j 0 = amaxAbs (acSlice c fs) → j = i) →
        bpms.length = 1 := by
  obtain ⟨-, -, hne, hb⟩ := estimate_ok_iff h
  subst hb
  refine ⟨by simpa using hne, by simp, ?_⟩
  intro i hi hiv huniq
  have hipos : i ∈ (List.range (acSlice c fs).length).filter
      (fun k => decide ((acSlice c fs).getD k 0 = amaxAbs (acSlice c fs))) :=
    List.mem_filter.mpr ⟨List.mem_range.mpr hi, by simp only [decide_eq_true_eq]; exact hiv⟩
  have hpd : peak_detect (acSlice c fs) = (List.range (acSlice c fs).length).filter
      (fun k => decide ((acSlice c fs).getD k 0 = amaxAbs (acSlice c fs))) := by
    simp only [peak_detect]
    rw [if_neg (List.ne_nil_of_mem hipos)]
  have hall : ∀ x ∈ peak_detect (acSlice c fs), x = i := by
    intro x hx
    rw [hpd] at hx
    obtain ⟨hx1, hx2⟩ := List.mem_filter.mp hx
    simp only [decide_eq_true_eq] at hx2
    exact huniq x (List.mem_range.mp hx1) hx2
  have hnd : (peak_detect (acSlice c fs)).Nodup := by
    rw [hpd]
    exact (List.nodup_range _).filter _
  rw [List.length_map]
  exact length_eq_one_of_nodup_all_eq hnd hne hall

/-- C10 witness: the amended statement at `sigBeat`, rate 32, where the peak is
unique and a single BPM is reported. -/
theorem C10_witness :
    [(240:ℚ)] ≠ [] ∧ [(240:ℚ)].length = (peak_detect (acSlice sigBeat 32)).length := by
  have h := C10_amended_ties sigBeat 32 [240] sigBeat_estimate
  exact ⟨h.1, h.2.1⟩

/-- Under the db4 output-length law, for every nonempty window whose level-0
detail length is not a multiple of 8 that is at least 16, all four level
additions of the decomposition loop succeed and the running composite keeps the
common length `T = ⌊d0/8⌋ + 1`. -/
theorem detectorLoop_ok (dwt : List ℚ → List ℚ × List ℚ)
    (hlen : ∀ x, (dwt x).1.length = dwtLen x.length ∧ (dwt x).2.length = dwtLen x.length)
    (data : List ℚ) (hne : data ≠ [])
    (hgood : ¬(8 ∣ dwtLen data.length ∧ 16 ≤ dwtLen data.length)) :
    ∃ s, detectorLoop dwt data =
        some ((dwt ((dwt ((dwt ((dwt data).1)).1)).1)).1, s, dwtLen data.length / 8 + 1) ∧
      s.length = dwtLen data.length / 8 + 1 := by
  have hn : 0 < data.length := List.length_pos.mpr hne
  obtain ⟨hA0, hD0⟩ := hlen data
  obtain ⟨hA1, hD1⟩ := hlen (dwt data).1
  rw [hA0] at hA1 hD1
  obtain ⟨hA2, hD2⟩ := hlen ((dwt (dwt data).1).1)
  rw [hA1] at hA2 hD2
  obtain ⟨hA3, hD3⟩ := hlen ((dwt ((dwt (dwt data).1).1)).1)
  rw [hA2] at hA3 hD3
  have side0 : ((processDetail 8 (dwt data).2).take (dwtLen data.length / 8 + 1)).length =
      (List.replicate (dwtLen data.length / 8 + 1) (0:ℚ)).length ∨
      ((processDetail 8 (dwt data).2).take (dwtLen data.length / 8 + 1)).length = 1 := by
    rw [List.length_take, processDetail_length, hD0, List.length_replicate]
    simp only [dwtLen] at hgood ⊢
    omega
  obtain ⟨s1, hs1, hl1⟩ := npAdd_ok side0
  rw [List.length_replicate] at hl1
  have side1 : ((processDetail 4 (dwt (dwt data).1).2).take (dwtLen data.length / 8 + 1)).length =
      s1.length ∨
      ((processDetail 4 (dwt (dwt data).1).2).take (dwtLen data.length / 8 + 1)).length = 1 := by
    rw [List.length_take, processDetail_length, hD1, hl1]
    left
    simp only [dwtLen]
    omega
  obtain ⟨s2, hs2, hl2⟩ := npAdd_ok side1
  rw [hl1] at hl2
  have side2 : ((processDetail 2 (dwt ((dwt (dwt data).1).1)).2).take
      (dwtLen data.length / 8 + 1)).length = s2.length ∨
      ((processDetail 2 (dwt ((dwt (dwt data).1).1)).2).take
        (dwtLen data.length / 8 + 1)).length = 1 := by
    rw [List.length_take, processDetail_length, hD2, hl2]
    left
    simp only [dwtLen]
    omega
  obtain ⟨s3, hs3, hl3⟩ := npAdd_ok side2
  rw [hl2] at hl3
  have side3 : ((processDetail 1 (dwt ((dwt ((dwt (dwt data).1).1)).1)).2).take
      (dwtLen data.length / 8 + 1)).length = s3.length ∨
      ((processDetail 1 (dwt ((dwt ((dwt (dwt data).1).1)).1)).2).take
        (dwtLen data.length / 8 + 1)).length = 1 := by
    rw [List.length_take, processDetail_length, hD3, hl3]
    left
    simp only [dwtLen]
    omega
  obtain ⟨s4, hs4, hl4⟩ := npAdd_ok side3
  rw [hl3] at hl4
  refine ⟨s4, ?_, hl4⟩
  simp only [detectorLoop, hD0]
  rw [hs1]
  simp only [Option.some_bind]
  rw [hs2]
  simp only [Option.some_bind]
  rw [hs3]
  simp only [Option.some_bind]
  rw [hs4]
  simp only [Option.map_some']

/-- C4 counterexample: a 26-sample window has level-0 detail length
`⌊(26+7)/2⌋ = 16`, a multiple of `max_decimation = 8`; the common length is
`16/8 + 1 = 3` but the level-0 subsampled envelope has only 2 entries, so the
level-0 elementwise addition raises a broadcast `ValueError` instead of being
total (evaluated on all-zero samples, where `pywt.dwt` returns zeros). -/
theorem C4_counterexample :
    detectorLoop db4ZeroModel (List.replicate 26 0) = none ∧
      bpm_detector db4ZeroModel (List.replicate 26 0) 100 = DetResult.err := by
  constructor <;> decide

/-- C4 amended: for every nonempty window whose level-0 detail length
`d0 = ⌊(n+7)/2⌋` is not a multiple of 8 that is at least 16, every truncated
envelope addition succeeds (when `d0 = 8` the one-element level-0 envelope
broadcasts), and the composite — including the approximation envelope added
after the loop — has exactly the common length `⌊d0/8⌋ + 1`. -/
theorem C4_amended_total (dwt : List ℚ → List ℚ × List ℚ)
    (hlen : ∀ x, (dwt x).1.length = dwtLen x.length ∧ (dwt x).2.length = dwtLen x.length)
    (data : List ℚ) (hne : data ≠ [])
    (hgood : ¬(8 ∣ dwtLen data.length ∧ 16 ≤ dwtLen data.length)) :
    ∃ s comp,
      detectorLoop dwt data =
        some ((dwt ((dwt ((dwt ((dwt data).1)).1)).1)).1, s, dwtLen data.length / 8 + 1) ∧
      s.length = dwtLen data.length / 8 + 1 ∧
      npAdd ((processApprox ((dwt ((dwt ((dwt ((dwt data).1)).1)).1)).1)).take
        (dwtLen data.length / 8 + 1)) s = some comp ∧
      comp.length = dwtLen data.length / 8 + 1 := by
  obtain ⟨s, hs, hl⟩ := detectorLoop_ok dwt hlen data hne hgood
  obtain ⟨hA0, -⟩ := hlen data
  obtain ⟨hA1, -⟩ := hlen (dwt data).1
  rw [hA0] at hA1
  obtain ⟨hA2, -⟩ := hlen ((dwt (dwt data).1).1)
  rw [hA1] at hA2
  obtain ⟨hA3, -⟩ := hlen ((dwt ((dwt (dwt data).1).1)).1)
  rw [hA2] at hA3
  have side : ((processApprox ((dwt ((dwt ((dwt ((dwt data).1)).1)).1)).1)).take
      (dwtLen data.length / 8 + 1)).length = s.length ∨
      ((processApprox ((dwt ((dwt ((dwt ((dwt data).1)).1)).1)).1)).take
        (dwtLen data.length / 8 + 1)).length = 1 := by
    rw [List.length_take, processApprox_length, hA3, hl]
    left
    simp only [dwtLen]
    omega
  obtain ⟨comp, hc, hcl⟩ := npAdd_ok side
  rw [hl] at hcl
  exact ⟨s, comp, hs, hl, hc, hcl⟩

/-- C4 witness: the amended totality at a silent 24-sample window (level-0
detail length 15, not a multiple of 8). -/
theorem C4_witness :
    ∃ s comp,
      detectorLoop db4ZeroModel (List.replicate 24 (0:ℚ)) =
        some ((db4ZeroModel ((db4ZeroModel ((db4ZeroModel ((db4ZeroModel
            (List.replicate 24 (0:ℚ))).1)).1)).1)).1, s,
          dwtLen (List.replicate 24 (0:ℚ)).length / 8 + 1) ∧
      s.length = dwtLen (List.replicate 24 (0:ℚ)).length / 8 + 1 ∧
      npAdd ((processApprox ((db4ZeroModel ((db4ZeroModel ((db4ZeroModel ((db4ZeroModel
          (List.replicate 24 (0:ℚ))).1)).1)).1)).1)).take
        (dwtLen (List.replicate 24 (0:ℚ)).length / 8 + 1)) s = some comp ∧
      comp.length = dwtLen (List.replicate 24 (0:ℚ)).length / 8 + 1 := by
  apply C4_amended_total
  · intro x
    exact ⟨by simp [db4ZeroModel], by simp [db4ZeroModel]⟩
  · simp
  · decide

/-- C5 counterexample: a silent 25-sample window has level-0 detail length 16,
so the detector raises the broadcast `ValueError` at level 0 — before the
all-zero check of line 75 is ever reached — instead of signalling the explicit
"no audio data" failure the claim requires for all-zero input. -/
theorem C5_counterexample :
    bpm_detector db4ZeroModel (List.replicate 25 0) 100 = DetResult.err ∧
      DetResult.err ≠ DetResult.noData := by
  constructor <;> decide

/-- C5 amended: for every nonempty window whose level-0 detail length is not a
multiple of 8 that is at least 16 (so the envelope summation succeeds) and whose
final approximation signal is entirely zero, `bpm_detector` signals the "no
audio data" failure and yields no numeric estimate. -/
theorem C5_amended_silent (dwt : List ℚ → List ℚ × List ℚ) (fs : ℚ)
    (hlen : ∀ x, (dwt x).1.length = dwtLen x.length ∧ (dwt x).2.length = dwtLen x.length)
    (data : List ℚ) (hne : data ≠ [])
    (hgood : ¬(8 ∣ dwtLen data.length ∧ 16 ≤ dwtLen data.length))
    (hzero : ((dwt ((dwt ((dwt ((dwt data).1)).1)).1)).1).all (fun b => decide (b = 0)) = true) :
    bpm_detector dwt data fs = DetResult.noData := by
  obtain ⟨s, hs, -⟩ := detectorLoop_ok dwt hlen data hne hgood
  simp only [bpm_detector, hs]
  rw [if_pos hzero]

/-- C5 witness: a silent 24-sample window (level-0 detail length 15) does reach
the all-zero check and yields the "no audio data" failure. -/
theorem C5_witness :
    bpm_detector db4ZeroModel (List.replicate 24 0) 100 = DetResult.noData := by
  apply C5_amended_silent
  · intro x
    exact ⟨by simp [db4ZeroModel], by simp [db4ZeroModel]⟩
  · simp
  · decide
  · decide

/-- Reading one entry of a map over `List.range`. -/
theorem getD_map_range (f : ℕ → List ℚ) (m k : ℕ) (hk : k < m) :
    ((List.range m).map f).getD k [] = f k := by
  rw [List.getD_eq_getElem?_getD, List.getElem?_map, List.getElem?_range hk]
  rfl

/-- C6 counterexample: on the empty sample sequence the adjusted window size is
0 and `math.floor(nsamps / window_samps)` raises `ZeroDivisionError`, so the
file analysis crashes — the claim's "every sequence length including the empty
sequence" fails. -/
theorem C6_counterexample :
    detectWindows ([] : List ℚ) 300 = none ∧
      detect_file_bpm db4ZeroModel ([] : List ℚ) 100 300 = FileResult.err := by
  constructor <;> decide

/-- C6 amended: for every nonempty sample sequence and positive window size in
samples, exactly `⌊nsamps/window_samps⌋` full consecutive windows are produced
and the remainder dropped; a sequence shorter than one window is analysed whole
as a single window; the empty sequence instead raises `ZeroDivisionError`.
`detect_file_bpm` and `detect_segment_bpm` share this windowing. -/
theorem C6_amended_windows (samps : List ℚ) (w0 : ℕ) (hne : samps ≠ []) (hw : 1 ≤ w0) :
    (w0 ≤ samps.length →
      ∃ L, detectWindows samps w0 = some L ∧ L.length = samps.length / w0 ∧
        ∀ k, k < L.length →
          L.getD k [] = (samps.drop (k * w0)).take w0 ∧ (L.getD k []).length = w0) ∧
    (samps.length < w0 → detectWindows samps w0 = some [samps]) := by
  have hn : 0 < samps.length := List.length_pos.mpr hne
  constructor
  · intro hle
    have hlt : ¬ samps.length < w0 := by omega
    have hw0 : ¬ (w0 = 0) := by omega
    refine ⟨(List.range (samps.length / w0)).map
      (fun k => (samps.drop (k * w0)).take w0), ?_, by simp, ?_⟩
    · simp only [detectWindows, if_neg hlt, if_neg hw0]
    · intro k hk
      simp only [List.length_map, List.length_range] at hk
      rw [getD_map_range _ _ _ hk]
      refine ⟨rfl, ?_⟩
      rw [List.length_take, List.length_drop]
      have h1 : (k + 1) * w0 ≤ (samps.length / w0) * w0 := Nat.mul_le_mul_right _ hk
      have h2 : (samps.length / w0) * w0 ≤ samps.length := Nat.div_mul_le_self _ _
      have h3 : k * w0 + w0 ≤ samps.length := by
        calc k * w0 + w0 = (k + 1) * w0 := by ring
        _ ≤ (samps.length / w0) * w0 := h1
        _ ≤ samps.length := h2
      omega
  · intro hlt
    have hw0 : ¬ (samps.length = 0) := by omega
    simp only [detectWindows, if_pos hlt, if_neg hw0]
    rw [Nat.div_self hn]
    have hr1 : List.range 1 = [0] := rfl
    simp [hr1, List.take_length]

/-- C6 witness: seven samples with a three-sample window give `⌊7/3⌋ = 2` full
windows (the seventh sample is dropped). -/
theorem C6_witness :
    ∃ L, detectWindows (List.replicate 7 (0:ℚ)) 3 = some L ∧ L.length = 2 := by
  obtain ⟨L, h1, h2, -⟩ :=
    (C6_amended_windows (List.replicate 7 (0:ℚ)) 3 (by simp) (by norm_num)).1 (by simp)
  exact ⟨L, h1, by simpa using h2⟩

/-- When every window result is `noData` or a singleton success, the collected
`bpm` arrays are exactly the singletons of the collected single estimates. -/
theorem filterMap_ok_singles : ∀ (rs : List DetResult),
    (∀ r ∈ rs, r = DetResult.noData ∨ ∃ b, r = DetResult.ok [b]) →
    rs.filterMap okList = (rs.filterMap extractSingle).map (fun b => [b]) := by
  intro rs
  induction rs with
  | nil => intro _; simp
  | cons r t ih =>
    intro h
    rcases h r (by simp) with h1 | ⟨b, h1⟩ <;> subst h1 <;>
      simp [okList, extractSingle, List.filterMap_cons,
        ih (fun x hx => h x (by simp [hx]))]

/-- Flattening a list of singletons gives back the underlying list. -/
theorem flatten_singletons : ∀ l : List ℚ, (l.map (fun b => [b])).flatten = l := by
  intro l
  induction l with
  | nil => rfl
  | cons a t ih => simp [ih]

/-- C7: the aggregation of lines 137-145 / 183-191 reports the explicit `None`
("undetected") when no window produced an estimate — never an exception and
never a numeric sentinel — and otherwise the median of the collected estimates
rounded to one decimal (stated for windows that each report a single value, the
spec's per-window data model). -/
theorem C7_aggregate_median :
    (∀ rs : List DetResult, (∀ r ∈ rs, r = DetResult.noData) →
      aggregate rs = FileResult.undetected) ∧
    (∀ rs : List DetResult, DetResult.err ∉ rs →
      (∀ r ∈ rs, r = DetResult.noData ∨ ∃ b, r = DetResult.ok [b]) →
      (∃ r ∈ rs, ∃ b, r = DetResult.ok [b]) →
      aggregate rs = FileResult.bpm (round1 (pyMedian (rs.filterMap extractSingle)))) := by
  constructor
  · intro rs h
    have hany : rs.any isErr = false := by
      rw [List.any_eq_false]
      intro r hr
      rw [h r hr]
      simp [isErr]
    have hfm : rs.filterMap okList = [] := by
      rw [List.filterMap_eq_nil_iff]
      intro r hr
      rw [h r hr]
      rfl
    simp [aggregate, hany, hfm]
  · intro rs herr hall hex
    have hany : rs.any isErr = false := by
      rw [List.any_eq_false]
      intro r hr
      rcases hall r hr with h1 | ⟨b, h1⟩ <;> subst h1 <;> simp [isErr]
    have hfm := filterMap_ok_singles rs hall
    have hsne : rs.filterMap extractSingle ≠ [] := by
      obtain ⟨r, hr, b, hb⟩ := hex
      subst hb
      exact List.ne_nil_of_mem
        (List.mem_filterMap.mpr ⟨DetResult.ok [b], hr, rfl⟩)
    obtain ⟨c, t, hct⟩ := List.exists_cons_of_ne_nil hsne
    simp only [aggregate, hany, Bool.false_eq_true, if_false]
    rw [hfm, hct]
    simp only [List.map_cons, List.headD_cons]
    rw [if_neg (by simp), if_pos ?_]
    · simp [flatten_singletons]
    · simp [List.all_eq_true]

/-- C7 witness: two silent windows aggregate to "undetected"; windows reporting
120 and 100 BPM aggregate to the rounded median 110.0. -/
theorem C7_witness :
    aggregate [DetResult.noData, DetResult.noData] = FileResult.undetected ∧
      aggregate [DetResult.ok [120], DetResult.noData, DetResult.ok [100]] =
        FileResult.bpm 110 := by
  constructor
  · refine C7_aggregate_median.1 [DetResult.noData, DetResult.noData] ?_
    intro r hr
    simp only [List.mem_cons, List.not_mem_nil, or_false] at hr
    rcases hr with h | h <;> exact h
  · have hall : ∀ r ∈ [DetResult.ok [120], DetResult.noData, DetResult.ok [100]],
        r = DetResult.noData ∨ ∃ b, r = DetResult.ok [b] := by
      intro r hr
      simp only [List.mem_cons, List.not_mem_nil, or_false] at hr
      rcases hr with h1 | h1 | h1
      · exact Or.inr ⟨120, h1⟩
      · exact Or.inl h1
      · exact Or.inr ⟨100, h1⟩
    have h := C7_aggregate_median.2 [DetResult.ok [120], DetResult.noData, DetResult.ok [100]]
      (by simp) hall ⟨DetResult.ok [120], by simp, 120, rfl⟩
    rw [h]
    have hfm2 : List.filterMap extractSingle
        [DetResult.ok [120], DetResult.noData, DetResult.ok [100]] = [120, 100] := rfl
    rw [hfm2]
    have hsort : sortQ [120, 100] = [100, 120] := by
      norm_num [sortQ, insertSortedQ]
    have hmed : pyMedian [120, 100] = 110 := by
      norm_num [pyMedian, hsort, List.getD]
    rw [hmed]
    have hfl : (⌊(1100:ℚ)⌋ : ℤ) = 1100 := by
      rw [show ((1100:ℚ)) = ((1100:ℤ):ℚ) by norm_num, Int.floor_intCast]
    norm_num [round1, roundHalfEven, hfl]

/-- Python `int(·)` (truncation toward zero) is monotone. -/
theorem pyInt_mono {x y : ℚ} (h : x ≤ y) : pyInt x ≤ pyInt y := by
  unfold pyInt
  by_cases hx : 0 ≤ x
  · rw [if_pos hx, if_pos (le_trans hx h)]
    exact Int.floor_le_floor h
  · rw [if_neg hx]
    by_cases hy : 0 ≤ y
    · rw [if_pos hy]
      calc ⌈x⌉ ≤ 0 := Int.ceil_le.mpr (by push_cast; linarith [not_le.mp hx])
        _ ≤ ⌊y⌋ := Int.floor_nonneg.mpr hy
    · rw [if_neg hy]
      exact Int.ceil_le_ceil h

/-- C9 counterexample: a request with negative `start_time = -5` on a 10-sample
clip at rate 1 passes all three validation checks (`-5 ≥ 10`, `2 > 10`,
`-5 ≥ 2` are all false), so the segment is NOT rejected as "invalid range";
Python's negative slice indexing then yields the empty segment `audio[-5:2]`
and the windowing raises `ZeroDivisionError`. -/
theorem C9_counterexample :
    detect_segment_bpm db4ZeroModel [0, 0, 0, 0, 0, 0, 0, 0, 0, 0] 1 (-5) 2 3 = SegResult.err ∧
      SegResult.err ≠ SegResult.invalidRange := by
  constructor
  · have h1 : pyInt ((-5 : ℚ) * 1) = -5 := by
      rw [show ((-5:ℚ) * 1) = ((-5:ℤ):ℚ) by norm_num]
      rw [pyInt, if_neg (by norm_num)]
      exact Int.ceil_intCast _
    have h2 : pyInt ((2 : ℚ) * 1) = 2 := by
      rw [show ((2:ℚ) * 1) = ((2:ℤ):ℚ) by norm_num]
      rw [pyInt, if_pos (by norm_num)]
      exact Int.floor_intCast _
    have h3 : sliceIdx 10 (-5) = 5 := by decide
    have h4 : sliceIdx 10 2 = 2 := by decide
    have h5 : pySlice [(0:ℚ), 0, 0, 0, 0, 0, 0, 0, 0, 0] (-5) 2 = [] := by
      simp [pySlice, h3, h4]
    simp only [detect_segment_bpm, h1, h2]
    rw [if_neg (by norm_num)]
    simp [h5, detectWindows]
  · decide

/-- C9 amended: a segment is rejected as "invalid range" exactly when
`int(start·fs) ≥ len` or `int(end·fs) > len` or `int(start·fs) ≥ int(end·fs)`;
in particular every request with `start_time ≥ end_time` is rejected before any
sample is touched, but a negative `start_time` whose truncated sample index
stays below the end index is not rejected (Python then slices from the end). -/
theorem C9_amended_reject (dwt : List ℚ → List ℚ × List ℚ) (audio : List ℚ)
    (fs start_time end_time : ℚ) (w0 : ℕ) (hfs : 0 ≤ fs) (hse : end_time ≤ start_time) :
    detect_segment_bpm dwt audio fs start_time end_time w0 = SegResult.invalidRange := by
  have h : pyInt (end_time * fs) ≤ pyInt (start_time * fs) :=
    pyInt_mono (mul_le_mul_of_nonneg_right hse hfs)
  simp only [detect_segment_bpm]
  rw [if_pos (Or.inr (Or.inr h))]

/-- C9 witness: the amended rejection at `start_time = 5 ≥ end_time = 3`. -/
theorem C9_witness :
    detect_segment_bpm db4ZeroModel [0] 1 5 3 3 = SegResult.invalidRange :=
  C9_amended_reject db4ZeroModel [0] 1 5 3 3 (by norm_num) (by norm_num)
